import Mathlib

/-!
Verification of the Scene Editor (Canvas) of the SD-LoRA tool frontend.

The definitions below are a shallow embedding of
`src/frontend/src/components/CanvasPage.tsx`.  JavaScript numbers are
modelled as exact rationals (`ℚ`); `zIndex` values are integers (`ℤ`).
Item ids, source URLs and file names are strings.
-/

namespace Canvas

/-- Constant `CANVAS_DIMENSION = 4000`, the side length of the virtual scene. -/
def CANVAS_DIMENSION : ℚ := 4000

/-- Constant `MIN_ITEM_SIZE = 48`, the minimum width/height of an item. -/
def MIN_ITEM_SIZE : ℚ := 48

/-- Constant `MAX_ZOOM = 2`. -/
def MAX_ZOOM : ℚ := 2

/-- Constant `MIN_ZOOM = 0.25`. -/
def MIN_ZOOM : ℚ := 1/4

/-- Constant `ZOOM_STEP = 0.1`. -/
def ZOOM_STEP : ℚ := 1/10

/-- The `CanvasItem` record of `CanvasPage.tsx`. -/
structure CanvasItem where
  id : String
  src : String
  name : String
  x : ℚ
  y : ℚ
  width : ℚ
  height : ℚ
  zIndex : ℤ
  naturalWidth : ℕ
  naturalHeight : ℕ
deriving DecidableEq

/-- The helper `clamp(value, min, max)` at the bottom of `CanvasPage.tsx`. -/
def clamp (value mi ma : ℚ) : ℚ :=
  if value < mi then mi
  else if value > ma then ma
  else value

/-- The helper `roundToTwo(value) = Math.round(value * 100) / 100`.
`Math.round` rounds half toward positive infinity, exactly as Mathlib's
`round` does. -/
def roundToTwo (value : ℚ) : ℚ :=
  (round (value * 100) : ℤ) / 100

/-- The mutable `dragState` ref captured on pointer-down on an item body. -/
structure DragState where
  id : String
  offsetX : ℚ
  offsetY : ℚ

/-- The mutable `resizeState` ref captured on pointer-down on a resize
handle. -/
structure ResizeState where
  id : String
  originX : ℚ
  originY : ℚ
  startWidth : ℚ
  startHeight : ℚ

/-- The drag branch of `handleMouseMove`: the dragged item's position is
set to the pointer position minus the grab offset, clamped so the item
stays inside the scene. -/
def dragUpdate (st : DragState) (pointerX pointerY : ℚ)
    (items : List CanvasItem) : List CanvasItem :=
  items.map fun item =>
    if item.id = st.id then
      { item with
        x := clamp (pointerX - st.offsetX) 0 (CANVAS_DIMENSION - item.width)
        y := clamp (pointerY - st.offsetY) 0 (CANVAS_DIMENSION - item.height) }
    else item

/-- The resize branch of `handleMouseMove`: the pointer delta from the
grab origin is added to the start size and clamped to
`[MIN_ITEM_SIZE, CANVAS_DIMENSION - x/y]`. -/
def resizeUpdate (st : ResizeState) (pointerX pointerY : ℚ)
    (items : List CanvasItem) : List CanvasItem :=
  items.map fun item =>
    if item.id = st.id then
      { item with
        width := clamp (st.startWidth + (pointerX - st.originX))
          MIN_ITEM_SIZE (CANVAS_DIMENSION - item.x)
        height := clamp (st.startHeight + (pointerY - st.originY))
          MIN_ITEM_SIZE (CANVAS_DIMENSION - item.y) }
    else item

/-- One global `mousemove` event while a drag or resize session is
active, with an arbitrary pointer position in scene coordinates. -/
inductive PointerMove where
  | drag (st : DragState) (pointerX pointerY : ℚ)
  | resize (st : ResizeState) (pointerX pointerY : ℚ)

/-- Dispatch one pointer-move event to the scene, as `handleMouseMove`
does. -/
def applyPointerMove : PointerMove → List CanvasItem → List CanvasItem
  | .drag st px py, items => dragUpdate st px py items
  | .resize st px py, items => resizeUpdate st px py items

/-- A whole interaction history: pointer-move events applied in order. -/
def applyPointerMoves (ops : List PointerMove) (items : List CanvasItem) :
    List CanvasItem :=
  ops.foldl (fun s op => applyPointerMove op s) items

/-- The scene-confinement invariant of spec §3 for a single item. -/
def itemInBounds (it : CanvasItem) : Prop :=
  0 ≤ it.x ∧ 0 ≤ it.y ∧
    it.x + it.width ≤ CANVAS_DIMENSION ∧
    it.y + it.height ≤ CANVAS_DIMENSION ∧
    MIN_ITEM_SIZE ≤ it.width ∧ MIN_ITEM_SIZE ≤ it.height

instance (it : CanvasItem) : Decidable (itemInBounds it) := by
  unfold itemInBounds; infer_instance

theorem clamp_mem (v mi ma : ℚ) (h : mi ≤ ma) :
    mi ≤ clamp v mi ma ∧ clamp v mi ma ≤ ma := by
  unfold clamp
  split
  · exact ⟨le_refl mi, h⟩
  · split
    · exact ⟨h, le_refl ma⟩
    · next h1 h2 => exact ⟨le_of_not_lt h1, le_of_not_gt h2⟩

theorem itemInBounds_dragUpdate (st : DragState) (px py : ℚ)
    (items : List CanvasItem) (h : ∀ it ∈ items, itemInBounds it) :
    ∀ it ∈ dragUpdate st px py items, itemInBounds it := by
  intro it hit
  rcases List.mem_map.mp hit with ⟨a, ha, rfl⟩
  have hb := h a ha
  obtain ⟨hx0, hy0, hxw, hyh, hwm, hhm⟩ := hb
  by_cases hid : a.id = st.id
  · rw [if_pos hid]
    have hw' : (0:ℚ) ≤ CANVAS_DIMENSION - a.width := by linarith
    have hh' : (0:ℚ) ≤ CANVAS_DIMENSION - a.height := by linarith
    have hcx := clamp_mem (px - st.offsetX) 0 (CANVAS_DIMENSION - a.width) hw'
    have hcy := clamp_mem (py - st.offsetY) 0 (CANVAS_DIMENSION - a.height) hh'
    unfold itemInBounds
    dsimp only
    refine ⟨hcx.1, hcy.1, ?_, ?_, hwm, hhm⟩
    · linarith [hcx.2]
    · linarith [hcy.2]
  · rw [if_neg hid]
    exact ⟨hx0, hy0, hxw, hyh, hwm, hhm⟩

theorem itemInBounds_resizeUpdate (st : ResizeState) (px py : ℚ)
    (items : List CanvasItem) (h : ∀ it ∈ items, itemInBounds it) :
    ∀ it ∈ resizeUpdate st px py items, itemInBounds it := by
  intro it hit
  rcases List.mem_map.mp hit with ⟨a, ha, rfl⟩
  have hb := h a ha
  obtain ⟨hx0, hy0, hxw, hyh, hwm, hhm⟩ := hb
  by_cases hid : a.id = st.id
  · rw [if_pos hid]
    have hw' : MIN_ITEM_SIZE ≤ CANVAS_DIMENSION - a.x := by linarith
    have hh' : MIN_ITEM_SIZE ≤ CANVAS_DIMENSION - a.y := by linarith
    have hcw := clamp_mem (st.startWidth + (px - st.originX))
      MIN_ITEM_SIZE (CANVAS_DIMENSION - a.x) hw'
    have hch := clamp_mem (st.startHeight + (py - st.originY))
      MIN_ITEM_SIZE (CANVAS_DIMENSION - a.y) hh'
    unfold itemInBounds
    dsimp only
    refine ⟨hx0, hy0, ?_, ?_, hcw.1, hch.1⟩
    · linarith [hcw.2]
    · linarith [hch.2]
  · rw [if_neg hid]
    exact ⟨hx0, hy0, hxw, hyh, hwm, hhm⟩

theorem itemInBounds_applyPointerMove (op : PointerMove)
    (items : List CanvasItem) (h : ∀ it ∈ items, itemInBounds it) :
    ∀ it ∈ applyPointerMove op items, itemInBounds it := by
  cases op with
  | drag st px py => exact itemInBounds_dragUpdate st px py items h
  | resize st px py => exact itemInBounds_resizeUpdate st px py items h

/-- Claim C2: for every scene whose items all satisfy the bounds
invariant (`x ≥ 0`, `y ≥ 0`, `x + width ≤ 4000`, `y + height ≤ 4000`,
`width ≥ 48`, `height ≥ 48`), after any sequence of drag-move and resize
updates of `handleMouseMove` with arbitrary pointer positions, every
item still satisfies the invariant. -/
theorem moveResize_preserves_bounds (ops : List PointerMove)
    (items : List CanvasItem) (h : ∀ it ∈ items, itemInBounds it) :
    ∀ it ∈ applyPointerMoves ops items, itemInBounds it := by
  induction ops generalizing items with
  | nil => exact h
  | cons op rest ih =>
      exact ih (applyPointerMove op items)
        (itemInBounds_applyPointerMove op items h)

/-- A concrete starting item for witnesses: fully in bounds. -/
def itemA : CanvasItem :=
  { id := "a", src := "blob:a", name := "a.png", x := 100, y := 100,
    width := 200, height := 200, zIndex := 1,
    naturalWidth := 400, naturalHeight := 200 }

/-- Witness for claim C2: in the concrete scene `[itemA]`, a drag to a
far-away pointer position followed by a resize to a huge size yields
the clamped item at x = 3800, y = 0, sized 200×48, which is in
bounds. -/
theorem moveResize_preserves_bounds_witness :
    itemInBounds { itemA with x := 3800, y := 0, width := 200, height := 48 } :=
  moveResize_preserves_bounds
    [.drag ⟨"a", 10, 10⟩ 99999 (-500),
     .resize ⟨"a", 0, 0, 200, 200⟩ 99999 (-99999)] [itemA]
    (by intro it hit; simp only [List.mem_singleton] at hit
        subst hit; with_unfolding_all decide)
    { itemA with x := 3800, y := 0, width := 200, height := 48 }
    (by
      have hrun : applyPointerMoves
          [.drag ⟨"a", 10, 10⟩ 99999 (-500),
           .resize ⟨"a", 0, 0, 200, 200⟩ 99999 (-99999)] [itemA]
          = [{ itemA with x := 3800, y := 0, width := 200, height := 48 }] := by
        norm_num [applyPointerMoves, applyPointerMove, dragUpdate,
          resizeUpdate, clamp, itemA, CANVAS_DIMENSION, MIN_ITEM_SIZE]
      rw [hrun]
      exact List.mem_singleton.mpr rfl)

/-- The reduce `items.reduce((acc, item) => Math.max(acc, item.zIndex), 0)` from
`handleBringForward`: note the accumulator starts at `0`, not at the
first element. -/
def maxZReduce (items : List CanvasItem) : ℤ :=
  items.foldl (fun acc it => max acc it.zIndex) 0

/-- The reduce `items.reduce((acc, item) => Math.min(acc, item.zIndex), Infinity)`
from `handleSendBackward`.  The `Infinity` accumulator is modelled as
`none` (for every finite `z`, `min(Infinity, z) = z`, which is the
`none` branch below); on a nonempty list the result is the finite
minimum, on the empty list it stays `none` (`Infinity`). -/
def minZReduce (items : List CanvasItem) : Option ℤ :=
  items.foldl
    (fun acc it =>
      match acc with
      | none => some it.zIndex
      | some a => some (min a it.zIndex)) none

/-- Handler `handleBringForward`, applied to the selected id: every item whose id
matches gets `zIndex := maxZ + 1` where `maxZ` is the 0-seeded reduce. -/
def handleBringForward (selectedId : String) (items : List CanvasItem) :
    List CanvasItem :=
  items.map fun item =>
    if item.id = selectedId then { item with zIndex := maxZReduce items + 1 }
    else item

/-- Handler `handleSendBackward`, applied to the selected id.  When the scene is
empty the reduce yields `Infinity` (`none`) and the map below runs over
the empty list, so the state is unchanged either way. -/
def handleSendBackward (selectedId : String) (items : List CanvasItem) :
    List CanvasItem :=
  match minZReduce items with
  | none => items
  | some minZ =>
      items.map fun item =>
        if item.id = selectedId then { item with zIndex := minZ - 1 }
        else item

/-- Spec-side definition, following the claim's words: "the maximum
zIndex over all current items" (no 0 seed). -/
def specZMax : List CanvasItem → Option ℤ
  | [] => none
  | it :: rest =>
      some (match specZMax rest with
        | none => it.zIndex
        | some m => max it.zIndex m)

/-- Spec-side definition: "the minimum zIndex over all current items". -/
def specZMin : List CanvasItem → Option ℤ
  | [] => none
  | it :: rest =>
      some (match specZMin rest with
        | none => it.zIndex
        | some m => min it.zIndex m)

theorem foldlMaxZ_acc_le (items : List CanvasItem) :
    ∀ acc : ℤ, acc ≤ items.foldl (fun a it => max a it.zIndex) acc := by
  induction items with
  | nil => intro acc; exact le_refl acc
  | cons it rest ih =>
      intro acc
      exact le_trans (le_max_left acc it.zIndex) (ih (max acc it.zIndex))

theorem foldlMaxZ_mem_le (items : List CanvasItem) :
    ∀ acc : ℤ, ∀ it ∈ items,
      it.zIndex ≤ items.foldl (fun a i => max a i.zIndex) acc := by
  induction items with
  | nil => intro acc it hit; cases hit
  | cons hd rest ih =>
      intro acc it hit
      rcases List.mem_cons.mp hit with rfl | htl
      · exact le_trans (le_max_right acc it.zIndex)
          (foldlMaxZ_acc_le rest (max acc it.zIndex))
      · exact ih (max acc hd.zIndex) it htl

theorem foldlMaxZ_eq_specZMax (items : List CanvasItem) :
    ∀ acc : ℤ, items.foldl (fun a it => max a it.zIndex) acc
      = (match specZMax items with
          | none => acc
          | some m => max acc m) := by
  induction items with
  | nil => intro acc; rfl
  | cons hd rest ih =>
      intro acc
      show rest.foldl (fun a it => max a it.zIndex) (max acc hd.zIndex) = _
      rw [ih (max acc hd.zIndex)]
      cases h : specZMax rest with
      | none => simp [specZMax, h]
      | some m => simp [specZMax, h, max_assoc]

theorem maxZReduce_eq (items : List CanvasItem) :
    maxZReduce items
      = (match specZMax items with
          | none => 0
          | some m => max 0 m) :=
  foldlMaxZ_eq_specZMax items 0

theorem foldlMinZ_eq_specZMin (items : List CanvasItem) :
    ∀ a : ℤ, items.foldl
        (fun acc it =>
          match acc with
          | none => some it.zIndex
          | some b => some (min b it.zIndex)) (some a)
      = some (match specZMin items with
          | none => a
          | some m => min a m) := by
  induction items with
  | nil => intro a; rfl
  | cons hd rest ih =>
      intro a
      show rest.foldl _ (some (min a hd.zIndex)) = _
      rw [ih (min a hd.zIndex)]
      cases h : specZMin rest with
      | none => simp [specZMin, h]
      | some m => simp [specZMin, h, min_assoc]

theorem minZReduce_eq (items : List CanvasItem) :
    minZReduce items = specZMin items := by
  cases items with
  | nil => rfl
  | cons hd rest =>
      show rest.foldl _ (some hd.zIndex) = _
      rw [foldlMinZ_eq_specZMin rest hd.zIndex]
      cases h : specZMin rest with
      | none => simp [specZMin, h]
      | some m => simp [specZMin, h]

theorem specZMin_eq_none_iff (items : List CanvasItem) :
    specZMin items = none ↔ items = [] := by
  cases items with
  | nil => simp [specZMin]
  | cons hd rest => simp [specZMin]

theorem specZMin_le_mem (items : List CanvasItem) (m : ℤ)
    (hm : specZMin items = some m) :
    ∀ it ∈ items, m ≤ it.zIndex := by
  induction items generalizing m with
  | nil => intro it hit; cases hit
  | cons hd rest ih =>
      intro it hit
      rcases List.mem_cons.mp hit with rfl | htl
      · cases h : specZMin rest with
        | none => simp [specZMin, h] at hm; omega
        | some k => simp [specZMin, h] at hm; omega
      · cases h : specZMin rest with
        | none =>
            exfalso
            cases rest with
            | nil => cases htl
            | cons a b => simp [specZMin] at h
        | some k =>
            have hk := ih k h it htl
            simp [specZMin, h] at hm
            omega

/-- A concrete item whose zIndex is negative, for the C3 counterexample. -/
def itemNeg : CanvasItem :=
  { id := "n", src := "blob:n", name := "n.png", x := 0, y := 0,
    width := 48, height := 48, zIndex := -5,
    naturalWidth := 48, naturalHeight := 48 }

/-- Claim C3 counterexample: in a scene whose only item has
`zIndex = -5`, the maximum zIndex over all items is `-5`, so the claim
predicts `bringToFront` assigns `-5 + 1 = -4`; the code assigns `1`
(its reduce seeds the accumulator with `0`). -/
theorem bringToFront_counterexample :
    specZMax [itemNeg] = some (-5) ∧
    (handleBringForward "n" [itemNeg]).map (fun it => it.zIndex) = [1] ∧
    (1 : ℤ) ≠ -5 + 1 := by
  refine ⟨rfl, ?_, by decide⟩
  with_unfolding_all decide

/-- Claim C3 (amended): for every nonempty scene, `bringToFront(id)`
sets the matching item's zIndex to `max 0 M + 1` where `M` is the
maximum zIndex over all current items (the code's reduce seeds with 0,
so an all-negative maximum is replaced by 0), and `sendToBack(id)` sets
it to `m - 1` where `m` is the true minimum zIndex; no other item
changes. -/
theorem zorder_amended (items : List CanvasItem) (id : String) (M m : ℤ)
    (hM : specZMax items = some M) (hm : specZMin items = some m) :
    handleBringForward id items
      = items.map (fun it =>
          if it.id = id then { it with zIndex := max 0 M + 1 } else it)
    ∧ handleSendBackward id items
      = items.map (fun it =>
          if it.id = id then { it with zIndex := m - 1 } else it) := by
  constructor
  · unfold handleBringForward
    rw [maxZReduce_eq items, hM]
  · unfold handleSendBackward
    rw [minZReduce_eq items, hm]

/-- A second negative-z item for the C3 amended witness. -/
def itemB : CanvasItem :=
  { id := "b", src := "blob:b", name := "b.png", x := 0, y := 0,
    width := 48, height := 48, zIndex := -2,
    naturalWidth := 48, naturalHeight := 48 }

/-- Witness for claim C3 (amended) on a concrete all-negative scene:
`bringToFront` uses `max 0 (-2) + 1 = 1` and `sendToBack` uses
`-5 - 1 = -6`. -/
theorem zorder_amended_witness :
    handleBringForward "n" [itemNeg, itemB]
      = [itemNeg, itemB].map (fun it =>
          if it.id = "n" then { it with zIndex := max 0 (-2) + 1 } else it)
    ∧ handleSendBackward "n" [itemNeg, itemB]
      = [itemNeg, itemB].map (fun it =>
          if it.id = "n" then { it with zIndex := -5 - 1 } else it) :=
  zorder_amended [itemNeg, itemB] "n" (-2) (-5)
    (by with_unfolding_all decide) (by with_unfolding_all decide)

/-- Claim C7: after `bringToFront(i)` immediately followed by
`sendToBack(i)`, item `i` has the strictly minimum zIndex: every item of
the resulting scene with id `i` has a zIndex strictly below every item
with another id. -/
theorem bringToFront_then_sendToBack_min (items : List CanvasItem)
    (id : String) :
    ∀ a ∈ handleSendBackward id (handleBringForward id items), a.id = id →
    ∀ b ∈ handleSendBackward id (handleBringForward id items), b.id ≠ id →
      a.zIndex < b.zIndex := by
  intro a ha haid b hb hbid
  set U := handleBringForward id items with hU
  cases hmin : minZReduce U with
  | none =>
      rw [handleSendBackward, hmin] at ha
      rw [minZReduce_eq] at hmin
      rw [(specZMin_eq_none_iff U).mp hmin] at ha
      cases ha
  | some m =>
      rw [handleSendBackward, hmin] at ha hb
      rw [minZReduce_eq] at hmin
      rcases List.mem_map.mp ha with ⟨ua, hua, rfl⟩
      rcases List.mem_map.mp hb with ⟨ub, hub, rfl⟩
      by_cases hida : ua.id = id
      · rw [if_pos hida]
        by_cases hidb : ub.id = id
        · exfalso
          rw [if_pos hidb] at hbid
          exact hbid hidb
        · rw [if_neg hidb]
          have hle := specZMin_le_mem U m hmin ub hub
          dsimp only
          omega
      · exfalso
        rw [if_neg hida] at haid
        exact hida haid

/-- A third concrete item, positive zIndex, for the C7 witness. -/
def itemC : CanvasItem :=
  { id := "c", src := "blob:c", name := "c.png", x := 300, y := 300,
    width := 50, height := 50, zIndex := 7,
    naturalWidth := 50, naturalHeight := 50 }

/-- Witness for claim C7: in the concrete scene `[itemA, itemC]`
(zIndexes 1 and 7), bringing "a" to front then sending it to back yields
zIndex 6 for "a", strictly below itemC's 7. -/
theorem bringToFront_then_sendToBack_min_witness :
    ({ itemA with zIndex := 6 }
        ∈ handleSendBackward "a" (handleBringForward "a" [itemA, itemC]))
    ∧ (itemC ∈ handleSendBackward "a" (handleBringForward "a" [itemA, itemC]))
    ∧ ({ itemA with zIndex := 6 } : CanvasItem).zIndex < itemC.zIndex :=
  ⟨by with_unfolding_all decide, by with_unfolding_all decide,
   bringToFront_then_sendToBack_min [itemA, itemC] "a"
     { itemA with zIndex := 6 } (by with_unfolding_all decide) (by decide)
     itemC (by with_unfolding_all decide) (by decide)⟩

/-- Handler `handleZoomIn`: `zoom ← Math.min(MAX_ZOOM, roundToTwo(zoom + ZOOM_STEP))`. -/
def handleZoomIn (z : ℚ) : ℚ :=
  min MAX_ZOOM (roundToTwo (z + ZOOM_STEP))

/-- Handler `handleZoomOut`: `zoom ← Math.max(MIN_ZOOM, roundToTwo(zoom - ZOOM_STEP))`. -/
def handleZoomOut (z : ℚ) : ℚ :=
  max MIN_ZOOM (roundToTwo (z - ZOOM_STEP))

/-- One toolbar zoom click. -/
inductive ZoomOp where
  | zoomIn
  | zoomOut

/-- A sequence of zoom clicks applied in order, starting from a given
zoom value. -/
def applyZoomOps (ops : List ZoomOp) (z : ℚ) : ℚ :=
  ops.foldl
    (fun z op =>
      match op with
      | .zoomIn => handleZoomIn z
      | .zoomOut => handleZoomOut z) z

theorem roundToTwo_bounds (v : ℚ) :
    v - 1/200 ≤ roundToTwo v ∧ roundToTwo v ≤ v + 1/200 := by
  have h := abs_sub_round (v * 100)
  rw [abs_le] at h
  unfold roundToTwo
  constructor
  · rw [le_div_iff (by norm_num : (0:ℚ) < 100)]
    linarith [h.2]
  · rw [div_le_iff (by norm_num : (0:ℚ) < 100)]
    linarith [h.1]

theorem zoom_step_preserves (z : ℚ) (h1 : MIN_ZOOM ≤ z) (h2 : z ≤ MAX_ZOOM) :
    (MIN_ZOOM ≤ handleZoomIn z ∧ handleZoomIn z ≤ MAX_ZOOM)
    ∧ (MIN_ZOOM ≤ handleZoomOut z ∧ handleZoomOut z ≤ MAX_ZOOM) := by
  have hin := roundToTwo_bounds (z + ZOOM_STEP)
  have hout := roundToTwo_bounds (z - ZOOM_STEP)
  unfold handleZoomIn handleZoomOut
  unfold MIN_ZOOM MAX_ZOOM ZOOM_STEP at *
  exact ⟨⟨le_min (by norm_num) (by linarith [hin.1]), min_le_left _ _⟩,
    le_max_left _ _, max_le (by norm_num) (by linarith [hout.2])⟩

theorem zoom_invariant_preserved (ops : List ZoomOp) :
    ∀ z : ℚ, MIN_ZOOM ≤ z → z ≤ MAX_ZOOM →
      MIN_ZOOM ≤ applyZoomOps ops z ∧ applyZoomOps ops z ≤ MAX_ZOOM := by
  induction ops with
  | nil => intro z h1 h2; exact ⟨h1, h2⟩
  | cons op rest ih =>
      intro z h1 h2
      have hstep := zoom_step_preserves z h1 h2
      cases op with
      | zoomIn => exact ih (handleZoomIn z) hstep.1.1 hstep.1.2
      | zoomOut => exact ih (handleZoomOut z) hstep.2.1 hstep.2.2

/-- Claim C9: starting from zoom = 1, after every finite sequence of
`handleZoomIn`/`handleZoomOut` clicks the zoom value lies in
`[MIN_ZOOM, MAX_ZOOM] = [0.25, 2]`; in particular no number of
consecutive zoom-in clicks exceeds `MAX_ZOOM`.  Each click adds or
subtracts `ZOOM_STEP = 0.1`, rounds to the nearest 0.01 via
`roundToTwo`, and clamps at the approached end of the interval. -/
theorem zoom_always_clamped (ops : List ZoomOp) :
    MIN_ZOOM ≤ applyZoomOps ops 1 ∧ applyZoomOps ops 1 ≤ MAX_ZOOM :=
  zoom_invariant_preserved ops 1
    (by unfold MIN_ZOOM; norm_num) (by unfold MAX_ZOOM; norm_num)

/-- Witness for claim C9 at a concrete click sequence (twelve zoom-ins,
far more than enough to reach the cap). -/
theorem zoom_always_clamped_witness :
    MIN_ZOOM ≤ applyZoomOps
        [.zoomIn, .zoomIn, .zoomIn, .zoomIn, .zoomIn, .zoomIn,
         .zoomIn, .zoomIn, .zoomIn, .zoomIn, .zoomIn, .zoomIn] 1
    ∧ applyZoomOps
        [.zoomIn, .zoomIn, .zoomIn, .zoomIn, .zoomIn, .zoomIn,
         .zoomIn, .zoomIn, .zoomIn, .zoomIn, .zoomIn, .zoomIn] 1 ≤ MAX_ZOOM :=
  zoom_always_clamped _

/-- The item built inside `handleFilesSelected` for one decoded image:
width capped at 320 (`baseWidth = Math.min(naturalWidth, 320)`), height
scaled proportionally, placed centered at `CANVAS_DIMENSION / 2`.  The
generated `Date.now()`-based id, the object URL and the file name are
parameters. -/
def createdItem (id src name : String) (z : ℤ)
    (naturalWidth naturalHeight : ℕ) : CanvasItem :=
  let baseWidth : ℚ := min (naturalWidth : ℚ) 320
  let scale : ℚ := baseWidth / (naturalWidth : ℚ)
  let baseHeight : ℚ := (naturalHeight : ℚ) * scale
  let canvasCenter : ℚ := CANVAS_DIMENSION / 2
  { id := id, src := src, name := name,
    x := canvasCenter - baseWidth / 2,
    y := canvasCenter - baseHeight / 2,
    width := baseWidth, height := baseHeight, zIndex := z,
    naturalWidth := naturalWidth, naturalHeight := naturalHeight }

/-- Claim C1 counterexample: a 1×20000 image decodes with nonzero
natural dimensions, yet the item created for it violates the scene
invariants: its width is `min(1, 320) = 1 < 48 = MIN_ITEM_SIZE`, its
height is `20000 > 4000`, so `y < 0` and `y + height > 4000`.
`handleFilesSelected` performs no clamping at creation. -/
theorem creation_bounds_counterexample :
    ¬ itemInBounds (createdItem "t" "blob:t" "tall.png" 1 1 20000) := by
  with_unfolding_all decide

/-- Claim C1 (amended): the created item satisfies the scene invariants
exactly when the capped width `min(nw, 320)` is at least
`MIN_ITEM_SIZE` and the scaled height `nh * (min(nw, 320) / nw)` lies
in `[MIN_ITEM_SIZE, CANVAS_DIMENSION]`; creation performs no clamping,
so every natural size outside that range violates the invariants.  (The
horizontal bounds hold for every size, since the width is capped at
320.) -/
theorem creation_bounds_amended (id src name : String) (z : ℤ)
    (nw nh : ℕ) :
    itemInBounds (createdItem id src name z nw nh)
      ↔ MIN_ITEM_SIZE ≤ min (nw : ℚ) 320
        ∧ MIN_ITEM_SIZE ≤ (nh : ℚ) * (min (nw : ℚ) 320 / (nw : ℚ))
        ∧ (nh : ℚ) * (min (nw : ℚ) 320 / (nw : ℚ)) ≤ CANVAS_DIMENSION := by
  have h320 : min (nw : ℚ) 320 ≤ 320 := min_le_right _ _
  unfold createdItem itemInBounds
  dsimp only
  unfold MIN_ITEM_SIZE CANVAS_DIMENSION at *
  constructor
  · rintro ⟨hx0, hy0, hxw, hyh, hwm, hhm⟩
    exact ⟨hwm, hhm, by linarith⟩
  · rintro ⟨hW, hH1, hH2⟩
    refine ⟨by linarith, by linarith, by linarith, by linarith, hW, hH1⟩

/-- Witness for claim C1 (amended): a 400×200 image satisfies the three
conditions (capped width 320, scaled height 160) and is therefore
created in bounds. -/
theorem creation_bounds_amended_witness :
    itemInBounds (createdItem "w" "blob:w" "w.png" 1 400 200) :=
  (creation_bounds_amended "w" "blob:w" "w.png" 1 400 200).mpr
    (by with_unfolding_all decide)

/-- One entry of the `FileList` passed to `handleFilesSelected`.
`mimeIsImage` models `file.type.startsWith('image/')`; `src` is the
object URL created for the file; `decoded` is `none` when
`loadImageElement` rejects, and otherwise carries the decoded natural
dimensions (`image.naturalWidth || image.width`, and likewise for the
height — the fallback chain is folded into the stored pair). -/
structure FileEntry where
  name : String
  src : String
  mimeIsImage : Bool
  decoded : Option (ℕ × ℕ)

/-- A file that contributes an item: image MIME type, successful decode,
both natural dimensions nonzero. -/
def goodFile (f : FileEntry) : Bool :=
  f.mimeIsImage &&
    match f.decoded with
    | none => false
    | some (nw, nh) => !(nw == 0) && !(nh == 0)

/-- The `for (const file of files)` loop of `handleFilesSelected`:
non-image files are skipped, decode failures are caught and skipped,
zero-dimension images are skipped; each accepted file becomes a
`createdItem` with the incremented z cursor.  `freshId` models the
`Date.now()`-based id generator, applied to the file's index. -/
def processFiles (freshId : ℕ → String) :
    List FileEntry → ℕ → ℤ → List CanvasItem
  | [], _, _ => []
  | f :: rest, idx, z =>
      if f.mimeIsImage then
        match f.decoded with
        | none => processFiles freshId rest (idx + 1) z
        | some (nw, nh) =>
            if nw = 0 ∨ nh = 0 then processFiles freshId rest (idx + 1) z
            else
              createdItem (freshId idx) f.src f.name (z + 1) nw nh
                :: processFiles freshId rest (idx + 1) (z + 1)
      else processFiles freshId rest (idx + 1) z

/-- Handler `handleFilesSelected`: early return on an empty file list; otherwise
run the loop starting the z cursor at the 0-seeded max-z reduce, append
the accepted items and select the last one (the code checks
`newItems.length` and uses `newItems[newItems.length - 1]`). -/
def handleFilesSelected (freshId : ℕ → String) (files : List FileEntry)
    (items : List CanvasItem) (selectedId : Option String) :
    List CanvasItem × Option String :=
  if files.isEmpty then (items, selectedId)
  else
    match (processFiles freshId files 0 (maxZReduce items)).getLast? with
    | none => (items, selectedId)
    | some last => (items ++ processFiles freshId files 0 (maxZReduce items),
        some last.id)

theorem processFiles_names (freshId : ℕ → String) (files : List FileEntry) :
    ∀ idx z, (processFiles freshId files idx z).map (fun it => it.name)
      = (files.filter goodFile).map (fun f => f.name) := by
  induction files with
  | nil => intro idx z; rfl
  | cons f rest ih =>
      intro idx z
      by_cases hmime : f.mimeIsImage
      · cases hdec : f.decoded with
        | none =>
            have hg : goodFile f = false := by
              unfold goodFile; rw [hdec]; simp
            simp [processFiles, if_pos hmime, hdec, List.filter_cons, hg, ih]
        | some p =>
            rcases p with ⟨nw, nh⟩
            by_cases hz : nw = 0 ∨ nh = 0
            · have hg : goodFile f = false := by
                unfold goodFile; rw [hdec]
                rcases hz with h0 | h0 <;> simp [h0]
              simp [processFiles, if_pos hmime, hdec, if_pos hz,
                List.filter_cons, hg, ih]
            · have hg : goodFile f = true := by
                unfold goodFile; rw [hdec]
                push_neg at hz
                simp [hmime, hz.1, hz.2]
              simp [processFiles, if_pos hmime, hdec, if_neg hz,
                List.filter_cons, hg, ih, createdItem]
      · have hg : goodFile f = false := by
          unfold goodFile
          rw [Bool.not_eq_true] at hmime
          simp [hmime]
        simp [processFiles, if_neg hmime, List.filter_cons, hg, ih]

theorem processFiles_length (freshId : ℕ → String) (files : List FileEntry)
    (idx : ℕ) (z : ℤ) :
    (processFiles freshId files idx z).length
      = (files.filter goodFile).length := by
  have h := processFiles_names freshId files idx z
  have h1 := congrArg List.length h
  simpa using h1

theorem getLast?_mem_of_eq {α : Type} {l : List α} {a : α}
    (h : l.getLast? = some a) : a ∈ l := by
  rcases List.mem_getLast?_eq_getLast (Option.mem_def.mpr h) with ⟨hne, rfl⟩
  exact List.getLast_mem hne

/-- Claim C6: for every batch of selected files, `handleFilesSelected`
appends exactly one item per good file (image MIME, decodable, nonzero
natural dimensions) — failing files are excluded and each appended
item's name is the corresponding good file's name — it never throws
(the embedding is a total function), leaves the previous items as a
prefix, and when at least one file is good the most recently appended
item becomes the selection; with no good file the state is unchanged. -/
theorem filesSelected_appends_good (freshId : ℕ → String)
    (files : List FileEntry) (items : List CanvasItem)
    (sel : Option String) :
    (handleFilesSelected freshId files items sel).1.length
        = items.length + (files.filter goodFile).length
    ∧ (handleFilesSelected freshId files items sel).1.take items.length
        = items
    ∧ ((handleFilesSelected freshId files items sel).1.drop items.length).map
          (fun it => it.name)
        = (files.filter goodFile).map (fun f => f.name)
    ∧ ((files.filter goodFile).length = 0 →
        handleFilesSelected freshId files items sel = (items, sel))
    ∧ (0 < (files.filter goodFile).length →
        (handleFilesSelected freshId files items sel).2
          = ((handleFilesSelected freshId files items sel).1.getLast?).map
              (fun it => it.id)) := by
  unfold handleFilesSelected
  by_cases hempty : files.isEmpty
  · rw [if_pos hempty]
    have : files = [] := List.isEmpty_iff.mp hempty
    subst this
    refine ⟨by simp, by simp, by simp, fun _ => rfl, fun h => ?_⟩
    simp at h
  · rw [if_neg hempty]
    have hlen := processFiles_length freshId files 0 (maxZReduce items)
    have hnames := processFiles_names freshId files 0 (maxZReduce items)
    cases hlast : (processFiles freshId files 0 (maxZReduce items)).getLast?
      with
    | none =>
        have hnil : processFiles freshId files 0 (maxZReduce items) = [] :=
          List.getLast?_eq_none_iff.mp hlast
        rw [hnil] at hlen
        simp only [List.length_nil] at hlen
        refine ⟨?_, by simp, ?_, fun _ => rfl, fun hpos => ?_⟩
        · show items.length = items.length + _
          omega
        · show (items.drop items.length).map _ = _
          rw [List.drop_length]
          rw [hnil] at hnames
          simpa using hnames
        · omega
    | some last =>
        have hne : processFiles freshId files 0 (maxZReduce items) ≠ [] := by
          intro hn; rw [hn] at hlast; cases hlast
        refine ⟨?_, ?_, ?_, fun h0 => ?_, fun _ => ?_⟩
        · simp [List.length_append, hlen]
        · exact List.take_left _ _
        · rw [List.drop_left]
          exact hnames
        · exfalso
          rw [← hlen] at h0
          exact hne (List.length_eq_zero.mp h0)
        · show some last.id = _
          rw [List.getLast?_append]
          rw [hlast]
          rfl

/-- Concrete id generator for witnesses. -/
def wFreshId : ℕ → String := fun n => "id-" ++ toString n

/-- A concrete batch: two good images, one non-image file, one
undecodable image, one zero-dimension image. -/
def wFiles : List FileEntry :=
  [{ name := "g1.png", src := "blob:g1", mimeIsImage := true,
     decoded := some (400, 200) },
   { name := "notes.txt", src := "blob:t", mimeIsImage := false,
     decoded := none },
   { name := "broken.png", src := "blob:br", mimeIsImage := true,
     decoded := none },
   { name := "zero.png", src := "blob:z", mimeIsImage := true,
     decoded := some (0, 10) },
   { name := "g2.png", src := "blob:g2", mimeIsImage := true,
     decoded := some (100, 100) }]

/-- Witness for claim C6: on the concrete batch `wFiles` (2 good files
among 5), the scene grows by exactly 2 and the selection is the id of
the last item of the resulting list. -/
theorem filesSelected_appends_good_witness :
    (handleFilesSelected wFreshId wFiles [itemA] none).1.length
        = [itemA].length + (wFiles.filter goodFile).length
    ∧ (handleFilesSelected wFreshId wFiles [itemA] none).2
        = ((handleFilesSelected wFreshId wFiles [itemA] none).1.getLast?).map
            (fun it => it.id) :=
  ⟨(filesSelected_appends_good wFreshId wFiles [itemA] none).1,
   (filesSelected_appends_good wFreshId wFiles [itemA] none).2.2.2.2
     (by decide)⟩

/-- The reactive state the selection invariant speaks about: the item
list and the current selection. -/
structure SceneState where
  items : List CanvasItem
  selectedId : Option String

/-- Handler `handleDeleteSelected`: a no-op without a selection; otherwise the
selected item is filtered out (its object URL is also revoked — the
resource side is outside this model) and the selection is cleared. -/
def handleDeleteSelected (s : SceneState) : SceneState :=
  match s.selectedId with
  | none => s
  | some sel =>
      { items := s.items.filter (fun it => !(it.id == sel)),
        selectedId := none }

/-- The selection effect of `handleItemMouseDown`: the handler returns
early when the id is not found in the item list, otherwise it records
the drag session (not part of `SceneState`) and selects the id. -/
def handleItemMouseDown (id : String) (s : SceneState) : SceneState :=
  if s.items.any (fun it => it.id == id) then { s with selectedId := some id }
  else s

/-- The selection effect of `handleResizeMouseDown`: same guard as
`handleItemMouseDown`, recording a resize session instead. -/
def handleResizeMouseDown (id : String) (s : SceneState) : SceneState :=
  if s.items.any (fun it => it.id == id) then { s with selectedId := some id }
  else s

/-- Handler `handleBackgroundMouseDown` clears the selection only when the event
target is the content layer itself. -/
def handleBackgroundMouseDown (targetIsContent : Bool) (s : SceneState) :
    SceneState :=
  if targetIsContent then { s with selectedId := none } else s

/-- Definition `sortedItems`: the memoized `[...items].sort((a, b) => a.zIndex -
b.zIndex)` (a stable ascending sort). -/
def sortedItems (items : List CanvasItem) : List CanvasItem :=
  items.mergeSort (fun a b => a.zIndex ≤ b.zIndex)

/-- Handler `handleLayerSelect`: the layer list renders one row per element of
`sortedItems` (reversed), and a click passes that row's item id, which
is selected unconditionally (then the viewport scrolls to it).  The op
carries the row's index; reversal does not change which ids are
reachable. -/
def handleLayerSelect (idx : ℕ) (s : SceneState) : SceneState :=
  match (sortedItems s.items).get? idx with
  | none => s
  | some it => { s with selectedId := some it.id }

/-- One user-interface event that touches the scene or the selection. -/
inductive UiOp where
  | filesSelected (freshId : ℕ → String) (files : List FileEntry)
  | deleteSelected
  | itemMouseDown (id : String)
  | resizeMouseDown (id : String)
  | backgroundMouseDown (targetIsContent : Bool)
  | bringForward
  | sendBackward
  | layerSelect (idx : ℕ)
  | pointerMove (pm : PointerMove)

/-- Dispatch one UI event to the scene state, as the component's
handlers do. -/
def stepUi : UiOp → SceneState → SceneState
  | .filesSelected freshId files, s =>
      { items := (handleFilesSelected freshId files s.items s.selectedId).1,
        selectedId := (handleFilesSelected freshId files s.items s.selectedId).2 }
  | .deleteSelected, s => handleDeleteSelected s
  | .itemMouseDown id, s => handleItemMouseDown id s
  | .resizeMouseDown id, s => handleResizeMouseDown id s
  | .backgroundMouseDown t, s => handleBackgroundMouseDown t s
  | .bringForward, s =>
      match s.selectedId with
      | none => s
      | some sel => { s with items := handleBringForward sel s.items }
  | .sendBackward, s =>
      match s.selectedId with
      | none => s
      | some sel => { s with items := handleSendBackward sel s.items }
  | .layerSelect idx, s => handleLayerSelect idx s
  | .pointerMove pm, s => { s with items := applyPointerMove pm s.items }

/-- The editor mounts with an empty scene and no selection. -/
def initialState : SceneState := { items := [], selectedId := none }

/-- A full interaction history from a given state. -/
def runUi (ops : List UiOp) (s : SceneState) : SceneState :=
  ops.foldl (fun s op => stepUi op s) s

/-- The implicit invariant of claim C10: the selection is `none` or the
id of an item currently in the scene. -/
def selectionLive (s : SceneState) : Prop :=
  ∀ id, s.selectedId = some id → id ∈ s.items.map (fun it => it.id)

theorem map_id_handleBringForward (sel : String) (items : List CanvasItem) :
    (handleBringForward sel items).map (fun it => it.id)
      = items.map (fun it => it.id) := by
  unfold handleBringForward
  rw [List.map_map]
  apply List.map_congr_left
  intro a _
  by_cases h : a.id = sel
  · simp [h, Function.comp]
  · simp [h, Function.comp]

theorem map_id_handleSendBackward (sel : String) (items : List CanvasItem) :
    (handleSendBackward sel items).map (fun it => it.id)
      = items.map (fun it => it.id) := by
  unfold handleSendBackward
  cases minZReduce items with
  | none => rfl
  | some m =>
      rw [List.map_map]
      apply List.map_congr_left
      intro a _
      by_cases h : a.id = sel
      · simp [h, Function.comp]
      · simp [h, Function.comp]

theorem map_id_applyPointerMove (pm : PointerMove)
    (items : List CanvasItem) :
    (applyPointerMove pm items).map (fun it => it.id)
      = items.map (fun it => it.id) := by
  cases pm with
  | drag st px py =>
      show (dragUpdate st px py items).map _ = _
      unfold dragUpdate
      rw [List.map_map]
      apply List.map_congr_left
      intro a _
      by_cases h : a.id = st.id
      · simp [h, Function.comp]
      · simp [h, Function.comp]
  | resize st px py =>
      show (resizeUpdate st px py items).map _ = _
      unfold resizeUpdate
      rw [List.map_map]
      apply List.map_congr_left
      intro a _
      by_cases h : a.id = st.id
      · simp [h, Function.comp]
      · simp [h, Function.comp]

theorem filesSelected_cases (freshId : ℕ → String) (files : List FileEntry)
    (items : List CanvasItem) (sel : Option String) :
    handleFilesSelected freshId files items sel = (items, sel)
    ∨ ∃ last,
        (handleFilesSelected freshId files items sel).1
          = items ++ processFiles freshId files 0 (maxZReduce items)
        ∧ (handleFilesSelected freshId files items sel).2 = some last.id
        ∧ last ∈ processFiles freshId files 0 (maxZReduce items) := by
  unfold handleFilesSelected
  by_cases hempty : files.isEmpty
  · rw [if_pos hempty]; left; rfl
  · rw [if_neg hempty]
    cases hlast : (processFiles freshId files 0 (maxZReduce items)).getLast?
      with
    | none => left; rfl
    | some last =>
        right
        exact ⟨last, rfl, rfl, getLast?_mem_of_eq hlast⟩

theorem stepUi_preserves_selectionLive (op : UiOp) (s : SceneState)
    (h : selectionLive s) : selectionLive (stepUi op s) := by
  cases op with
  | filesSelected freshId files =>
      intro id hid
      simp only [stepUi] at hid ⊢
      rcases filesSelected_cases freshId files s.items s.selectedId with
        heq | ⟨last, h1, h2, h3⟩
      · have h1' := congrArg Prod.fst heq
        have h2' := congrArg Prod.snd heq
        rw [h1']
        rw [h2'] at hid
        exact h id hid
      · rw [h1]
        rw [h2] at hid
        injection hid with hid
        subst hid
        rw [List.map_append]
        exact List.mem_append_right _ (List.mem_map.mpr ⟨last, h3, rfl⟩)
  | deleteSelected =>
      intro id hid
      simp only [stepUi] at hid ⊢
      unfold handleDeleteSelected at hid ⊢
      revert hid
      cases hsel : s.selectedId with
      | none => intro hid; exact h id hid
      | some sel => intro hid; exact Option.noConfusion hid
  | itemMouseDown tid =>
      intro id hid
      simp only [stepUi] at hid ⊢
      unfold handleItemMouseDown at hid ⊢
      by_cases hany : s.items.any (fun it => it.id == tid)
      · rw [if_pos hany] at hid ⊢
        have hid' : some tid = some id := hid
        injection hid' with hid'
        subst hid'
        rcases List.any_eq_true.mp hany with ⟨it, hit, hbeq⟩
        exact List.mem_map.mpr ⟨it, hit, beq_iff_eq.mp hbeq⟩
      · rw [if_neg hany] at hid ⊢
        exact h id hid
  | resizeMouseDown tid =>
      intro id hid
      simp only [stepUi] at hid ⊢
      unfold handleResizeMouseDown at hid ⊢
      by_cases hany : s.items.any (fun it => it.id == tid)
      · rw [if_pos hany] at hid ⊢
        have hid' : some tid = some id := hid
        injection hid' with hid'
        subst hid'
        rcases List.any_eq_true.mp hany with ⟨it, hit, hbeq⟩
        exact List.mem_map.mpr ⟨it, hit, beq_iff_eq.mp hbeq⟩
      · rw [if_neg hany] at hid ⊢
        exact h id hid
  | backgroundMouseDown t =>
      intro id hid
      simp only [stepUi] at hid ⊢
      unfold handleBackgroundMouseDown at hid ⊢
      cases t with
      | false => exact h id hid
      | true => exact Option.noConfusion hid
  | bringForward =>
      intro id hid
      simp only [stepUi] at hid ⊢
      revert hid
      cases hsel : s.selectedId with
      | none => intro hid; exact h id hid
      | some sel =>
          intro hid
          show id ∈ (handleBringForward sel s.items).map (fun it => it.id)
          rw [map_id_handleBringForward]
          have hid' : some sel = some id := hid
          injection hid' with hid'
          exact h id (by rw [hsel, hid'])
  | sendBackward =>
      intro id hid
      simp only [stepUi] at hid ⊢
      revert hid
      cases hsel : s.selectedId with
      | none => intro hid; exact h id hid
      | some sel =>
          intro hid
          show id ∈ (handleSendBackward sel s.items).map (fun it => it.id)
          rw [map_id_handleSendBackward]
          have hid' : some sel = some id := hid
          injection hid' with hid'
          exact h id (by rw [hsel, hid'])
  | layerSelect idx =>
      intro id hid
      simp only [stepUi] at hid ⊢
      unfold handleLayerSelect at hid ⊢
      revert hid
      cases hget : (sortedItems s.items).get? idx with
      | none => intro hid; exact h id hid
      | some it =>
          intro hid
          have hid' : some it.id = some id := hid
          injection hid' with hid'
          subst hid'
          have hmem : it ∈ s.items :=
            (List.mergeSort_perm s.items _).mem_iff.mp (List.get?_mem hget)
          exact List.mem_map.mpr ⟨it, hmem, rfl⟩
  | pointerMove pm =>
      intro id hid
      simp only [stepUi] at hid ⊢
      show id ∈ (applyPointerMove pm s.items).map (fun it => it.id)
      rw [map_id_applyPointerMove]
      exact h id hid

/-- Claim C10: in every state reachable from the freshly mounted editor
(empty scene, no selection) by the scene operations — adding files,
deleting the selected item, pointer-down selection on items and resize
handles, background clicks, z-order changes, layer-list selection and
drag/resize pointer moves — the selection is either `none` or the id of
an item currently in the scene. -/
theorem selection_always_live (ops : List UiOp) :
    selectionLive (runUi ops initialState) := by
  have hstep : ∀ (l : List UiOp) (s : SceneState), selectionLive s →
      selectionLive (runUi l s) := by
    intro l
    induction l with
    | nil => intro s hs; exact hs
    | cons op rest ih =>
        intro s hs
        exact ih (stepUi op s) (stepUi_preserves_selectionLive op s hs)
  apply hstep
  intro id hid
  cases hid

/-- Witness for claim C10 at a concrete interaction history: add the
`wFiles` batch, click item "a", delete it, then click the background. -/
theorem selection_always_live_witness :
    selectionLive (runUi
      [.filesSelected wFreshId wFiles, .itemMouseDown "a",
       .deleteSelected, .backgroundMouseDown true] initialState) :=
  selection_always_live _

/-- The environment an export run interacts with: whether
`canvas.getContext('2d')` yields a context, what `loadImageElement`
yields per source url (`none` = the promise rejects; otherwise the
decoded dimensions, `image.naturalWidth || image.width` folded into the
pair), and whether `canvas.toBlob` produces a blob. -/
structure ExportEnv where
  ctxAvailable : Bool
  decode : String → Option (ℕ × ℕ)
  blobProduced : Bool

/-- One `context.drawImage(image, offsetX, offsetY, drawWidth,
drawHeight)` call. -/
structure DrawCall where
  src : String
  offsetX : ℚ
  offsetY : ℚ
  drawWidth : ℚ
  drawHeight : ℚ
deriving DecidableEq

/-- The two failures of the export path: the thrown
`new Error('无法创建画布上下文。')` and the `canvasToBlob` rejection
`new Error('导出失败')`. -/
inductive ExportError where
  | noContext
  | noBlob
deriving DecidableEq

/-- How the `try` block of `handleExport` ends: the silent early return
on non-positive canvas dimensions, a failure (with the draw calls made
before it), or completion with a triggered download. -/
inductive AttemptOutcome where
  | degenerate (w h : ℤ)
  | failed (e : ExportError) (w h : ℤ) (draws : List DrawCall)
  | completed (w h : ℤ) (draws : List DrawCall)
deriving DecidableEq

/-- The spread `Math.min(...items.map((item) => item.x))` for `it0 :: rest`. -/
def exportMinX (it0 : CanvasItem) (rest : List CanvasItem) : ℚ :=
  (rest.map (fun it => it.x)).foldl min it0.x

/-- The spread `Math.min(...items.map((item) => item.y))`. -/
def exportMinY (it0 : CanvasItem) (rest : List CanvasItem) : ℚ :=
  (rest.map (fun it => it.y)).foldl min it0.y

/-- The spread `Math.max(...items.map((item) => item.x + item.width))`. -/
def exportMaxX (it0 : CanvasItem) (rest : List CanvasItem) : ℚ :=
  (rest.map (fun it => it.x + it.width)).foldl max (it0.x + it0.width)

/-- The spread `Math.max(...items.map((item) => item.y + item.height))`. -/
def exportMaxY (it0 : CanvasItem) (rest : List CanvasItem) : ℚ :=
  (rest.map (fun it => it.y + it.height)).foldl max (it0.y + it0.height)

/-- The fixed export padding of 32 scene units per side. -/
def exportPadding : ℚ := 32

/-- Dimension `exportWidth = Math.ceil(maxX - minX + padding * 2)`. -/
def exportWidthOf (it0 : CanvasItem) (rest : List CanvasItem) : ℤ :=
  ⌈exportMaxX it0 rest - exportMinX it0 rest + exportPadding * 2⌉

/-- Dimension `exportHeight = Math.ceil(maxY - minY + padding * 2)`. -/
def exportHeightOf (it0 : CanvasItem) (rest : List CanvasItem) : ℤ :=
  ⌈exportMaxY it0 rest - exportMinY it0 rest + exportPadding * 2⌉

/-- The per-item body of the export loop: a decode failure or a zero
dimension skips the layer (`continue` / the inner `catch`); otherwise
the item draws at the uniform "contain" scale, centered in its box,
offset by (item position − bounding-box origin + padding). -/
def drawCallFor (env : ExportEnv) (padding minX minY : ℚ)
    (item : CanvasItem) : Option DrawCall :=
  match env.decode item.src with
  | none => none
  | some (inw, inh) =>
      let naturalWidth : ℕ :=
        if item.naturalWidth ≠ 0 then item.naturalWidth else inw
      let naturalHeight : ℕ :=
        if item.naturalHeight ≠ 0 then item.naturalHeight else inh
      if naturalWidth = 0 ∨ naturalHeight = 0 then none
      else
        let scale : ℚ := min (item.width / (naturalWidth : ℚ))
          (item.height / (naturalHeight : ℚ))
        let drawWidth : ℚ := (naturalWidth : ℚ) * scale
        let drawHeight : ℚ := (naturalHeight : ℚ) * scale
        some
          { src := item.src
            offsetX := padding + item.x - minX + (item.width - drawWidth) / 2
            offsetY := padding + item.y - minY + (item.height - drawHeight) / 2
            drawWidth := drawWidth
            drawHeight := drawHeight }

/-- The draw calls of one export run: items in ascending zIndex order,
each drawn or skipped by `drawCallFor`. -/
def exportDraws (env : ExportEnv) (it0 : CanvasItem)
    (rest : List CanvasItem) : List DrawCall :=
  (sortedItems (it0 :: rest)).filterMap
    (drawCallFor env exportPadding (exportMinX it0 rest)
      (exportMinY it0 rest))

/-- The `try` block of `handleExport` for a nonempty scene: bounding
box, dimension guard, context acquisition, white fill (no observable in
this model), ordered draw loop, blob encoding. -/
def exportBody (env : ExportEnv) (it0 : CanvasItem)
    (rest : List CanvasItem) : AttemptOutcome :=
  if exportWidthOf it0 rest ≤ 0 ∨ exportHeightOf it0 rest ≤ 0 then
    .degenerate (exportWidthOf it0 rest) (exportHeightOf it0 rest)
  else if env.ctxAvailable = false then
    .failed .noContext (exportWidthOf it0 rest) (exportHeightOf it0 rest) []
  else if env.blobProduced then
    .completed (exportWidthOf it0 rest) (exportHeightOf it0 rest)
      (exportDraws env it0 rest)
  else
    .failed .noBlob (exportWidthOf it0 rest) (exportHeightOf it0 rest)
      (exportDraws env it0 rest)

/-- What one `handleExport` call does, observably.  `errorToCaller` is
what escapes `handleExport` to the click handler that invoked it: the
outer `catch {}` swallows every failure, so it is `none` on every path
of the code. -/
structure ExportResult where
  downloadTriggered : Bool
  draws : List DrawCall
  exportWidth : ℤ
  exportHeight : ℤ
  errorToCaller : Option ExportError
  isExportingAfter : Bool
deriving DecidableEq

/-- Handler `handleExport`: early return when the scene is empty or an export is
in flight (before `setIsExporting(true)`); otherwise run the try block,
trigger the download only on completion, silently ignore failures
(`catch {}`), and reset the flag in `finally`.  The scene state is not
touched on any path (the model returns no items). -/
def handleExport (env : ExportEnv) (items : List CanvasItem)
    (isExporting : Bool) : ExportResult :=
  match items, isExporting with
  | [], b =>
      { downloadTriggered := false, draws := [], exportWidth := 0,
        exportHeight := 0, errorToCaller := none, isExportingAfter := b }
  | _ :: _, true =>
      { downloadTriggered := false, draws := [], exportWidth := 0,
        exportHeight := 0, errorToCaller := none, isExportingAfter := true }
  | it0 :: rest, false =>
      match exportBody env it0 rest with
      | .degenerate w h =>
          { downloadTriggered := false, draws := [], exportWidth := w,
            exportHeight := h, errorToCaller := none,
            isExportingAfter := false }
      | .failed _ w h draws =>
          { downloadTriggered := false, draws := draws, exportWidth := w,
            exportHeight := h, errorToCaller := none,
            isExportingAfter := false }
      | .completed w h draws =>
          { downloadTriggered := true, draws := draws, exportWidth := w,
            exportHeight := h, errorToCaller := none,
            isExportingAfter := false }

/-- Claim C8: `handleExport` is a no-op when the scene is empty or an
export is already in flight: no draw calls, no download, no error to the
caller, and the `isExporting` flag is left as it was (the early return
precedes `setIsExporting(true)`).  The model is a pure function of the
item list, so the scene state is unchanged on this path by
construction. -/
theorem export_noop_when_empty_or_busy (env : ExportEnv)
    (items : List CanvasItem) (isExporting : Bool)
    (h : items = [] ∨ isExporting = true) :
    handleExport env items isExporting
      = { downloadTriggered := false, draws := [], exportWidth := 0,
          exportHeight := 0, errorToCaller := none,
          isExportingAfter := isExporting } := by
  rcases h with rfl | rfl
  · cases isExporting <;> rfl
  · cases items <;> rfl

/-- A fully working export environment for witnesses. -/
def envOk : ExportEnv :=
  { ctxAvailable := true, decode := fun _ => some (400, 200),
    blobProduced := true }

/-- Witness for claim C8: a second export request on a nonempty scene
while one is in flight does nothing. -/
theorem export_noop_when_empty_or_busy_witness :
    handleExport envOk [itemA] true
      = { downloadTriggered := false, draws := [], exportWidth := 0,
          exportHeight := 0, errorToCaller := none,
          isExportingAfter := true } :=
  export_noop_when_empty_or_busy envOk [itemA] true (Or.inr rfl)

theorem foldlMin_le_acc (qs : List ℚ) : ∀ a : ℚ, qs.foldl min a ≤ a := by
  induction qs with
  | nil => intro a; exact le_refl a
  | cons q rest ih =>
      intro a
      exact le_trans (ih (min a q)) (min_le_left a q)

theorem acc_le_foldlMax (qs : List ℚ) : ∀ a : ℚ, a ≤ qs.foldl max a := by
  induction qs with
  | nil => intro a; exact le_refl a
  | cons q rest ih =>
      intro a
      exact le_trans (le_max_left a q) (ih (max a q))

theorem export_dims_pos (it0 : CanvasItem) (rest : List CanvasItem)
    (h0 : itemInBounds it0) :
    0 < exportWidthOf it0 rest ∧ 0 < exportHeightOf it0 rest := by
  obtain ⟨hx0, hy0, hxw, hyh, hwm, hhm⟩ := h0
  have hminx : exportMinX it0 rest ≤ it0.x := foldlMin_le_acc _ _
  have hmaxx : it0.x + it0.width ≤ exportMaxX it0 rest := acc_le_foldlMax _ _
  have hminy : exportMinY it0 rest ≤ it0.y := foldlMin_le_acc _ _
  have hmaxy : it0.y + it0.height ≤ exportMaxY it0 rest := acc_le_foldlMax _ _
  unfold MIN_ITEM_SIZE at hwm hhm
  constructor
  · rw [exportWidthOf]
    apply Int.ceil_pos.mpr
    unfold exportPadding
    linarith
  · rw [exportHeightOf]
    apply Int.ceil_pos.mpr
    unfold exportPadding
    linarith

/-- Claim C4 (amended): when acquiring the 2D context fails, the export
attempt fails with the internal context error before any drawing, and
when encoding yields no blob, the attempt fails with the rejection of
`canvasToBlob`; in both cases no download is triggered — but the outer
`catch {}` of `handleExport` swallows the failure, so no error reaches
the caller (`errorToCaller = none`), contrary to the claim's "surfaced
to the caller". -/
theorem export_failure_swallowed (env : ExportEnv) (it0 : CanvasItem)
    (rest : List CanvasItem)
    (hbounds : ∀ it ∈ it0 :: rest, itemInBounds it) :
    (env.ctxAvailable = false →
      exportBody env it0 rest
          = .failed .noContext (exportWidthOf it0 rest)
            (exportHeightOf it0 rest) []
        ∧ handleExport env (it0 :: rest) false
          = { downloadTriggered := false, draws := [],
              exportWidth := exportWidthOf it0 rest,
              exportHeight := exportHeightOf it0 rest,
              errorToCaller := none, isExportingAfter := false })
    ∧ (env.ctxAvailable = true → env.blobProduced = false →
      exportBody env it0 rest
          = .failed .noBlob (exportWidthOf it0 rest)
            (exportHeightOf it0 rest) (exportDraws env it0 rest)
        ∧ handleExport env (it0 :: rest) false
          = { downloadTriggered := false, draws := exportDraws env it0 rest,
              exportWidth := exportWidthOf it0 rest,
              exportHeight := exportHeightOf it0 rest,
              errorToCaller := none, isExportingAfter := false }) := by
  have hpos := export_dims_pos it0 rest (hbounds it0 (List.mem_cons_self _ _))
  have hguard : ¬ (exportWidthOf it0 rest ≤ 0 ∨ exportHeightOf it0 rest ≤ 0) := by
    push_neg
    exact hpos
  constructor
  · intro hctx
    have hb : exportBody env it0 rest
        = .failed .noContext (exportWidthOf it0 rest)
          (exportHeightOf it0 rest) [] := by
      unfold exportBody
      rw [if_neg hguard, if_pos hctx]
    refine ⟨hb, ?_⟩
    simp only [handleExport]
    rw [hb]
  · intro hctx hblob
    have hb : exportBody env it0 rest
        = .failed .noBlob (exportWidthOf it0 rest)
          (exportHeightOf it0 rest) (exportDraws env it0 rest) := by
      unfold exportBody
      rw [if_neg hguard, if_neg (by simp [hctx]), if_neg (by simp [hblob])]
    refine ⟨hb, ?_⟩
    simp only [handleExport]
    rw [hb]

/-- An environment whose canvas yields no 2D context. -/
def envNoCtx : ExportEnv :=
  { ctxAvailable := false, decode := fun _ => some (400, 200),
    blobProduced := true }

/-- Claim C4 counterexample: with the context unavailable on a concrete
one-item scene, `handleExport` triggers no download — but it also
surfaces nothing to its caller (the catch block silently ignores the
thrown error), so the claim's "an error is surfaced to the caller" is
false at this input. -/
theorem export_error_not_surfaced_counterexample :
    (handleExport envNoCtx [itemA] false).errorToCaller = none
    ∧ (handleExport envNoCtx [itemA] false).downloadTriggered = false := by
  with_unfolding_all decide

/-- Witness for claim C4 (amended), context-failure branch, at the
concrete scene `[itemA]`. -/
theorem export_failure_swallowed_witness :
    exportBody envNoCtx itemA []
        = .failed .noContext (exportWidthOf itemA []) (exportHeightOf itemA [])
          []
    ∧ handleExport envNoCtx [itemA] false
        = { downloadTriggered := false, draws := [],
            exportWidth := exportWidthOf itemA [],
            exportHeight := exportHeightOf itemA [],
            errorToCaller := none, isExportingAfter := false } :=
  (export_failure_swallowed envNoCtx itemA []
    (by intro it hit
        simp only [List.mem_singleton] at hit
        subst hit
        with_unfolding_all decide)).1 rfl

/-- Claim C5: for the one-item scene at (100, 100) with display size
200×200 and a 400×200 natural-size source, the export bounding box is
(100, 100)–(300, 300), the output canvas is 264×264 (32 padding per
side), the uniform scale is min(200/400, 200/200) = 1/2, and the image
draws at 200×100, letterboxed vertically: output offset (32, 82). -/
theorem export_concrete_scenario :
    exportMinX itemA [] = 100 ∧ exportMinY itemA [] = 100
    ∧ exportMaxX itemA [] = 300 ∧ exportMaxY itemA [] = 300
    ∧ handleExport envOk [itemA] false
      = { downloadTriggered := true,
          draws := [{ src := "blob:a", offsetX := 32, offsetY := 82,
                      drawWidth := 200, drawHeight := 100 }],
          exportWidth := 264, exportHeight := 264,
          errorToCaller := none, isExportingAfter := false } := by
  have hsort : sortedItems [itemA] = [itemA] := by simp [sortedItems]
  have hdraws : exportDraws envOk itemA []
      = [{ src := "blob:a", offsetX := 32, offsetY := 82,
           drawWidth := 200, drawHeight := 100 }] := by
    unfold exportDraws
    rw [hsort]
    with_unfolding_all decide
  have hbody : exportBody envOk itemA []
      = .completed 264 264
          [{ src := "blob:a", offsetX := 32, offsetY := 82,
             drawWidth := 200, drawHeight := 100 }] := by
    unfold exportBody
    rw [hdraws]
    with_unfolding_all decide
  refine ⟨by with_unfolding_all decide, by with_unfolding_all decide,
    by with_unfolding_all decide, by with_unfolding_all decide, ?_⟩
  simp only [handleExport]
  rw [hbody]

end Canvas
